import Mathlib

/-!
Shallow embedding of the EDNS Client Subnet option codec (RFC 7871) from
`src/base/opt/rfc7871.rs`, and of the database-backed zone reading logic from
`examples/other/mysql-zone.rs`.

Bytes are modelled as `Nat` values below 256 (validity hypotheses carry the
`u8` range where it matters).  Machine arithmetic is embedded with explicit
`% 256` truncation; shift amounts on `u8` are reduced `% 8`, matching
release-mode Rust semantics for overflowing shifts.
-/

/-- Embedding of `fn prefix_bytes(bits: usize) -> (usize, u8)`.
Returns the number of address bytes on the wire, `ceil(bits / 8)`, and the
mask for the final byte.  The Rust scrutinee is `8 - (bits % 8)`, which ranges
over `1..=8`, so the `0 => 0xff` arm is dead; when `bits % 8 = 0` the shift
amount is 8 and release-mode `u8` shifting reduces it mod 8, yielding `0xff`.
The shifted value is truncated to `u8` with `% 256`. -/
def prefix_bytes (bits : Nat) : Nat × Nat :=
  let n := (bits + 7) / 8
  let mask : Nat :=
    match 8 - bits % 8 with
    | 0 => 0xff
    | n => (0xff <<< (n % 8)) % 256

  (n, mask)

/-- Embedding of `if let Some(e) = buf.get_mut(prefix_bytes - 1) { *e &= mask }`,
used by both `parse` and `compose`.  When `pb = 0` the Rust index `pb - 1`
wraps to `usize::MAX` (release semantics) and `get_mut` yields `None`, so the
array is unchanged; `List.set` is likewise the identity out of range. -/
def maskLast (arr : List Nat) (pb mask : Nat) : List Nat :=
  if pb = 0 then arr
  else arr.set (pb - 1) (arr.getD (pb - 1) 0 &&& mask)

/-- Embedding of `IpAddr`: a 4-byte IPv4 or a 16-byte IPv6 address, as the
octet list returned by `addr.octets()`. -/
inductive IpAddr where
  | v4 (octets : List Nat)
  | v6 (octets : List Nat)
deriving DecidableEq

/-- The octets of an address. -/
def IpAddr.octets : IpAddr → List Nat
  | .v4 o => o
  | .v6 o => o

/-- The bit width of the address family: 32 for IPv4, 128 for IPv6. -/
def IpAddr.bits : IpAddr → Nat
  | .v4 _ => 32
  | .v6 _ => 128

/-- Well-formedness of the embedded address: the Rust `Ipv4Addr` octet array
has exactly 4 bytes and `Ipv6Addr` exactly 16, each a `u8`. -/
def IpAddr.wf : IpAddr → Prop
  | .v4 o => o.length = 4 ∧ ∀ b ∈ o, b < 256
  | .v6 o => o.length = 16 ∧ ∀ b ∈ o, b < 256

instance (a : IpAddr) : Decidable a.wf := by
  cases a <;> exact inferInstanceAs (Decidable (_ ∧ _))

/-- Embedding of `struct ClientSubnet`. -/
structure ClientSubnet where
  source_prefix_len : Nat
  scope_prefix_len : Nat
  addr : IpAddr
deriving DecidableEq

/-- Well-formedness: the two length fields are `u8` and the address is
well-formed. -/
def ClientSubnet.wf (cs : ClientSubnet) : Prop :=
  cs.addr.wf ∧ cs.source_prefix_len < 256 ∧ cs.scope_prefix_len < 256

instance (cs : ClientSubnet) : Decidable cs.wf :=
  inferInstanceAs (Decidable (_ ∧ _))

/-- Embedding of `impl Compose for ClientSubnet`.  The result is the byte list
appended to the target: the family as a big-endian `u16` (`[0,1]` for IPv4,
`[0,2]` for IPv6), the two length bytes, then the first `prefix_bytes` bytes
of the address with the final-byte mask applied.  `none` models the panic of
the slice `&array[..prefix_bytes]` when `prefix_bytes` exceeds the fixed
array length (4 for IPv4, 16 for IPv6). -/
def ClientSubnet.compose (cs : ClientSubnet) : Option (List Nat) :=
  let pb := (prefix_bytes cs.source_prefix_len).1
  let mask := (prefix_bytes cs.source_prefix_len).2
  match cs.addr with
  | .v4 octets =>
      if pb ≤ 4 then
        some (0 :: 1 :: cs.source_prefix_len :: cs.scope_prefix_len ::
          (maskLast octets pb mask).take pb)
      else none
  | .v6 octets =>
      if pb ≤ 16 then
        some (0 :: 2 :: cs.source_prefix_len :: cs.scope_prefix_len ::
          (maskLast octets pb mask).take pb)
      else none

/-- Embedding of `ParseError`: either the parser ran out of data
(`ShortInput`) or the data is malformed (`FormError` with its message). -/
inductive ParseErr where
  | shortInput
  | form (msg : String)
deriving DecidableEq

/-- Embedding of `Parser::parse_u8`. -/
def parse_u8 : List Nat → Except ParseErr (Nat × List Nat)
  | [] => .error .shortInput
  | b :: rest => .ok (b, rest)

/-- Embedding of `Parser::parse_u16` (big-endian). -/
def parse_u16 : List Nat → Except ParseErr (Nat × List Nat)
  | b0 :: b1 :: rest => .ok (b0 * 256 + b1, rest)
  | _ => .error .shortInput

/-- Embedding of `Parser::parse_buf(&mut buf[..n])`: reads exactly `n` bytes
from the cursor or fails with `ShortInput`. -/
def parse_buf (n : Nat) (l : List Nat) : Except ParseErr (List Nat × List Nat) :=
  if n ≤ l.length then .ok (l.take n, l.drop n) else .error .shortInput

/-- Embedding of `impl Parse for ClientSubnet`: family (`u16`), the two
length bytes, then `prefix_bytes` address bytes read into a zero-initialised
fixed-size buffer with the final byte masked.  The returned list is the
remainder of the cursor. -/
def ClientSubnet.parse (input : List Nat) :
    Except ParseErr (ClientSubnet × List Nat) :=
  match parse_u16 input with
  | .error e => .error e
  | .ok (family, r1) =>
    match parse_u8 r1 with
    | .error e => .error e
    | .ok (source_prefix_len, r2) =>
      match parse_u8 r2 with
      | .error e => .error e
      | .ok (scope_prefix_len, r3) =>
        let pb := (prefix_bytes source_prefix_len).1
        let mask := (prefix_bytes source_prefix_len).2
        if family = 1 then
          if pb > 4 then
            .error (.form "invalid address length in client subnet option")
          else
            match parse_buf pb r3 with
            | .error e => .error e
            | .ok (bytes, r4) =>
              .ok (⟨source_prefix_len, scope_prefix_len,
                .v4 (maskLast (bytes ++ List.replicate (4 - pb) 0) pb mask)⟩, r4)
        else if family = 2 then
          if pb > 16 then
            .error (.form "invalid address length in client subnet option")
          else
            match parse_buf pb r3 with
            | .error e => .error e
            | .ok (bytes, r4) =>
              .ok (⟨source_prefix_len, scope_prefix_len,
                .v6 (maskLast (bytes ++ List.replicate (16 - pb) 0) pb mask)⟩, r4)
        else
          .error (.form "invalid client subnet address family")

/-- Modelled from the spec: the mask that keeps, in address byte `i`, only
the bits covered by a prefix of `spl` bits — all 8 bits of a byte wholly
inside the prefix, the top `spl % 8` bits of a partial byte, and no bits of a
byte past the prefix. -/
def specByteMask (spl i : Nat) : Nat :=
  (2 ^ min 8 (spl - 8 * i) - 1) <<< (8 - min 8 (spl - 8 * i))

/-- Modelled from the spec: mask every byte of the address, starting at byte
index `i`. -/
def canonicalizeAddr (spl : Nat) : Nat → List Nat → List Nat
  | _, [] => []
  | i, b :: rest => (b &&& specByteMask spl i) :: canonicalizeAddr spl (i + 1) rest

/-- Modelled from the spec: the lossy normalisation the wire format applies —
the address masked to `source_prefix_len` bits, with every bit beyond the
prefix (including whole tail bytes) zeroed; prefix lengths unchanged. -/
def canonicalize (cs : ClientSubnet) : ClientSubnet :=
  { cs with
    addr :=
      match cs.addr with
      | .v4 o => .v4 (canonicalizeAddr cs.source_prefix_len 0 o)
      | .v6 o => .v6 (canonicalizeAddr cs.source_prefix_len 0 o) }

/-- Embedding of `Rtype`: a record type, identified by its numeric code. -/
structure Rtype where
  code : Nat
deriving DecidableEq

/-- Modelled from the spec: one record's typed data (`ZoneRecordData` of the
`domain` crate, whose definition is outside the sampled sources); claims only
move values of this type around, so it is kept abstract as its record text. -/
structure ZoneRecordData where
  text : String
deriving DecidableEq

/-- Modelled from the spec: the DNS response codes used by the zone read
path. -/
inductive Rcode where
  | noerror
  | nxdomain
  | servfail
deriving DecidableEq

/-- Modelled from the spec: an RRset — records sharing a type and TTL, built
incrementally by pushing parsed record data. -/
structure Rrset where
  rtype : Rtype
  ttl : Nat
  data : List ZoneRecordData
deriving DecidableEq

/-- Modelled from the spec: `Rrset::new(type, ttl)` creates an empty set. -/
def Rrset.new (rtype : Rtype) (ttl : Nat) : Rrset :=
  ⟨rtype, ttl, []⟩

/-- Modelled from the spec: `push_data` appends one record's data. -/
def Rrset.push_data (r : Rrset) (d : ZoneRecordData) : Rrset :=
  { r with data := r.data ++ [d] }

/-- Modelled from the spec: an Answer — a response code plus zero or more
RRsets for the answer section. -/
structure Answer where
  rcode : Rcode
  answer : List Rrset
deriving DecidableEq

/-- Modelled from the spec: `Answer::new(rcode)` creates an empty answer. -/
def Answer.new (rcode : Rcode) : Answer :=
  ⟨rcode, []⟩

/-- Modelled from the spec: `add_answer(rrset)` appends a shareable RRset. -/
def Answer.add_answer (a : Answer) (r : Rrset) : Answer :=
  { a with answer := a.answer ++ [r] }

/-- Modelled from the spec: the `OutOfZone` authority error (never produced
by the database-backed read path). -/
structure OutOfZone where
deriving DecidableEq

/-- Embedding of `struct DatabaseReadZone` (its database pool is external
I/O; only the apex name identity is kept). -/
structure DatabaseReadZone where
  apex_name : String
deriving DecidableEq

/-- Embedding of `DatabaseReadZone::is_async`. -/
def DatabaseReadZone.is_async (_z : DatabaseReadZone) : Bool :=
  true

/-- One row of the `records` table as consumed by the walk query. -/
structure DbRow where
  name : String
  rtype : Rtype
  content : String
  ttl : Nat
deriving DecidableEq

/-- Embedding of the body of `DatabaseReadZone::query_async`.  The database
round-trip is abstracted as its outcome `fetch_one` (the `content` text and
`ttl` of the first matching row, or `none` when the query matched no row),
and record-data parsing as the function `scan` (embedding
`ZoneRecordData::scan`, `none` for a parse failure).  A fetched row whose
content scans yields a NOERROR answer carrying one RRset; a scan failure
yields a SERVFAIL answer; no row yields an NXDOMAIN answer.  All three are
`Ok` results. -/
def DatabaseReadZone.query_async (scan : Rtype → String → Option ZoneRecordData)
    (fetch_one : Option (String × Nat)) (qtype : Rtype) :
    Except OutOfZone Answer :=
  match fetch_one with
  | some (content, ttl) =>
      match scan qtype content with
      | some data =>
          .ok (Answer.add_answer (Answer.new .noerror)
            ((Rrset.new qtype ttl).push_data data))
      | none => .ok (Answer.new .servfail)
  | none => .ok (Answer.new .nxdomain)

/-- Embedding of the body of `DatabaseReadZone::walk_async` over the fetched
rows, returning the sequence of visitor invocations `op(owner, rrset)` in
order: a row whose content scans produces one invocation; a row whose content
fails to scan is skipped and the walk continues. -/
def DatabaseReadZone.walk_async (scan : Rtype → String → Option ZoneRecordData) :
    List DbRow → List (String × Rrset)
  | [] => []
  | row :: rest =>
      match scan row.rtype row.content with
      | some data =>
          (row.name, (Rrset.new row.rtype row.ttl).push_data data) ::
            DatabaseReadZone.walk_async scan rest
      | none => DatabaseReadZone.walk_async scan rest

/-- Outcome of calling a synchronous `ReadableZone` method: either the panic
of the `unimplemented!()` macro, or a returned value. -/
inductive SyncCall (α : Type) where
  | unimplementedPanic
  | returns (val : α)

/-- Embedding of `DatabaseReadZone::query`: `unimplemented!()` for every
input. -/
def DatabaseReadZone.query (_z : DatabaseReadZone) (_qname : String)
    (_qtype : Rtype) : SyncCall (Except OutOfZone Answer) :=
  .unimplementedPanic

/-- Embedding of `DatabaseReadZone::walk`: `unimplemented!()` for every
input. -/
def DatabaseReadZone.walk (_z : DatabaseReadZone) : SyncCall Unit :=
  .unimplementedPanic

theorem and_255_eq (x : Nat) (h : x < 256) : x &&& 255 = x := by
  have h2 : x < 2 ^ 8 := by omega
  calc x &&& 255 = x &&& (2 ^ 8 - 1) := by norm_num
    _ = x := Nat.and_pow_two_sub_one_of_lt_two_pow h2

theorem and_mask_idem (x m : Nat) : (x &&& m) &&& m = x &&& m := by
  rw [Nat.and_assoc, Nat.and_self]

theorem maskLast_length (l : List Nat) (pb m : Nat) :
    (maskLast l pb m).length = l.length := by
  unfold maskLast
  split <;> simp

/-- C3: Encoding ClientSubnet with source_prefix_len 22, scope_prefix_len 0
and address 192.0.2.0 yields exactly the bytes [0,1,22,0,192,0,0] (last byte
masked); the same address with source_prefix_len 23 yields exactly
[0,1,23,0,192,0,2]. -/
theorem compose_truncation_examples :
    ClientSubnet.compose ⟨22, 0, .v4 [192, 0, 2, 0]⟩ =
      some [0, 1, 22, 0, 192, 0, 0] ∧
    ClientSubnet.compose ⟨23, 0, .v4 [192, 0, 2, 0]⟩ =
      some [0, 1, 23, 0, 192, 0, 2] :=
  ⟨rfl, rfl⟩

/-- C4: Decoding [0,1,22,0,192,0,2] succeeds and yields address 192.0.0.0:
the decoder ANDs the last transmitted byte with the mask, clearing the bits
beyond the 22-bit prefix, and the address bytes beyond prefix_bytes remain
zero. -/
theorem parse_masks_beyond_source_len :
    ClientSubnet.parse [0, 1, 22, 0, 192, 0, 2] =
      .ok (⟨22, 0, .v4 [192, 0, 0, 0]⟩, []) :=
  rfl

/-- C5: Decoding a ClientSubnet option whose 2-byte family field is neither 1
nor 2 fails with a format error; no partial value is returned. -/
theorem parse_rejects_unknown_family (hi lo spl scpl : Nat) (rest : List Nat)
    (h1 : hi * 256 + lo ≠ 1) (h2 : hi * 256 + lo ≠ 2) :
    ClientSubnet.parse (hi :: lo :: spl :: scpl :: rest) =
      .error (.form "invalid client subnet address family") := by
  simp [ClientSubnet.parse, parse_u16, parse_u8, h1, h2]

/-- Witness for C5 at family 3. -/
theorem parse_rejects_unknown_family_witness :
    ClientSubnet.parse (0 :: 3 :: 22 :: 0 :: [192, 0, 2]) =
      .error (.form "invalid client subnet address family") :=
  parse_rejects_unknown_family 0 3 22 0 [192, 0, 2] (by decide) (by decide)

/-- C7: When the database query matches no stored record, query_async returns
Ok with an Answer whose rcode is NXDOMAIN and which contains zero RRsets. -/
theorem query_async_no_match_nxdomain
    (scan : Rtype → String → Option ZoneRecordData) (qtype : Rtype) :
    DatabaseReadZone.query_async scan none qtype = .ok ⟨.nxdomain, []⟩ :=
  rfl

/-- C8: A stored record whose text fails to parse against its declared type
yields an Ok SERVFAIL answer from query_async (the parse error is not
propagated), and during walk_async the malformed row produces no visitor
invocation while the rest of the walk is unaffected. -/
theorem corrupt_record_servfail_and_walk_skip
    (scan : Rtype → String → Option ZoneRecordData) (qtype : Rtype)
    (content : String) (ttl : Nat) (bad : DbRow) (rows1 rows2 : List DbRow)
    (hq : scan qtype content = none) (hb : scan bad.rtype bad.content = none) :
    DatabaseReadZone.query_async scan (some (content, ttl)) qtype =
      .ok ⟨.servfail, []⟩ ∧
    DatabaseReadZone.walk_async scan (rows1 ++ bad :: rows2) =
      DatabaseReadZone.walk_async scan (rows1 ++ rows2) := by
  constructor
  · simp [DatabaseReadZone.query_async, hq, Answer.new]
  · induction rows1 with
    | nil => simp [DatabaseReadZone.walk_async, hb]
    | cons r rs ih =>
        simp only [List.cons_append, DatabaseReadZone.walk_async]
        cases hscan : scan r.rtype r.content <;> simp [hscan, ih]

/-- Witness for C8: a scanner that rejects everything, one corrupt row. -/
theorem corrupt_record_servfail_and_walk_skip_witness :
    DatabaseReadZone.query_async (fun _ _ => none) (some ("not parseable", 3600))
      ⟨1⟩ = .ok ⟨.servfail, []⟩ ∧
    DatabaseReadZone.walk_async (fun _ _ => none)
        ([] ++ ⟨"example.com", ⟨1⟩, "bad", 60⟩ :: []) =
      DatabaseReadZone.walk_async (fun _ _ => none) ([] ++ []) :=
  corrupt_record_servfail_and_walk_skip (fun _ _ => none) ⟨1⟩ "not parseable"
    3600 ⟨"example.com", ⟨1⟩, "bad", 60⟩ [] [] rfl rfl

/-- C9: is_async returns true on every DatabaseReadZone instance, and the
synchronous query and walk variants reach the unimplemented panic for every
input rather than producing an answer or a recoverable error. -/
theorem readable_zone_sync_contract (z : DatabaseReadZone) (qname : String)
    (qtype : Rtype) :
    z.is_async = true ∧ z.query qname qtype = .unimplementedPanic ∧
      z.walk = .unimplementedPanic :=
  ⟨rfl, rfl, rfl⟩

theorem prefix_bytes_fst (spl : Nat) : (prefix_bytes spl).1 = (spl + 7) / 8 := rfl

theorem prefix_bytes_mask (spl : Nat) :
    (prefix_bytes spl).2 = (255 <<< ((8 - spl % 8) % 8)) % 256 := by
  simp only [prefix_bytes]
  rcases h : 8 - spl % 8 with _ | k
  all_goals first | omega | rfl

theorem shift_mask_eq (r : Nat) (h1 : 1 ≤ r) (h7 : r ≤ 7) :
    (255 <<< (8 - r)) % 256 = (2 ^ r - 1) <<< (8 - r) := by
  interval_cases r <;> rfl

theorem specByteMask_full (spl j : Nat) (h : 8 * (j + 1) ≤ spl) :
    specByteMask spl j = 255 := by
  simp only [specByteMask]
  have e : min 8 (spl - 8 * j) = 8 := by omega
  rw [e]
  decide

theorem specByteMask_zero (spl j : Nat) (h : spl ≤ 8 * j) :
    specByteMask spl j = 0 := by
  simp only [specByteMask]
  have e : min 8 (spl - 8 * j) = 0 := by omega
  rw [e]
  decide

theorem mask_eq_spec (spl : Nat) (h1 : 1 ≤ spl) :
    (prefix_bytes spl).2 = specByteMask spl ((prefix_bytes spl).1 - 1) := by
  rw [prefix_bytes_mask, prefix_bytes_fst]
  simp only [specByteMask]
  rcases Nat.eq_zero_or_pos (spl % 8) with hr0 | hrpos
  · have e : min 8 (spl - 8 * ((spl + 7) / 8 - 1)) = 8 := by omega
    rw [e, hr0]
    decide
  · have e : min 8 (spl - 8 * ((spl + 7) / 8 - 1)) = spl % 8 := by omega
    have e3 : (8 - spl % 8) % 8 = 8 - spl % 8 := by omega
    rw [e, e3]
    exact shift_mask_eq (spl % 8) hrpos (by omega)

theorem canonicalizeAddr_length (spl : Nat) :
    ∀ (o : List Nat) (i : Nat), (canonicalizeAddr spl i o).length = o.length := by
  intro o
  induction o with
  | nil => intro i; rfl
  | cons b t ih => intro i; simp [canonicalizeAddr, ih]

theorem canonicalizeAddr_getElem? (spl : Nat) :
    ∀ (o : List Nat) (i j : Nat),
      (canonicalizeAddr spl i o)[j]? =
        (o[j]?).map (fun x => x &&& specByteMask spl (i + j)) := by
  intro o
  induction o with
  | nil => intro i j; simp [canonicalizeAddr]
  | cons b t ih =>
      intro i j
      cases j with
      | zero => simp [canonicalizeAddr]
      | succ k =>
          simp only [canonicalizeAddr, List.getElem?_cons_succ]
          rw [ih (i + 1) k, show i + 1 + k = i + (k + 1) by omega]

theorem maskLast_getElem?_ne (l : List Nat) (pb m j : Nat)
    (h : pb = 0 ∨ j ≠ pb - 1) :
    (maskLast l pb m)[j]? = l[j]? := by
  unfold maskLast
  split
  · rfl
  · rcases h with h | h
    · omega
    · exact List.getElem?_set_ne (Ne.symm h)

theorem maskLast_getElem?_last (l : List Nat) (pb m : Nat) (hpb : pb ≠ 0)
    (hlt : pb - 1 < l.length) :
    (maskLast l pb m)[pb - 1]? = some (l.getD (pb - 1) 0 &&& m) := by
  unfold maskLast
  rw [if_neg hpb]
  exact List.getElem?_set_self (by simpa using hlt)

theorem getElem?_eq_some_getD {l : List Nat} {j : Nat} (h : j < l.length) :
    l[j]? = some (l.getD j 0) := by
  rw [List.getD_eq_getElem?_getD, List.getElem?_eq_getElem h]
  rfl

theorem getD_lt_of_forall {l : List Nat} (h : ∀ x ∈ l, x < 256) (i : Nat)
    (hi : i < l.length) : l.getD i 0 < 256 := by
  rw [List.getD_eq_getElem?_getD, List.getElem?_eq_getElem hi]
  exact h _ (List.getElem_mem hi)

theorem roundtrip_addr (spl n : Nat) (o : List Nat) (hn : o.length = n)
    (hb : ∀ x ∈ o, x < 256) (hle : spl ≤ 8 * n) :
    maskLast
        ((maskLast o (prefix_bytes spl).1 (prefix_bytes spl).2).take
            (prefix_bytes spl).1 ++
          List.replicate (n - (prefix_bytes spl).1) 0)
        (prefix_bytes spl).1 (prefix_bytes spl).2 =
      canonicalizeAddr spl 0 o := by
  have hpbv : (prefix_bytes spl).1 = (spl + 7) / 8 := prefix_bytes_fst spl
  rcases hpm : prefix_bytes spl with ⟨pb, mask⟩
  rw [hpm] at hpbv
  simp only at hpbv ⊢
  have hmask_spec : 1 ≤ spl → mask = specByteMask spl (pb - 1) := by
    intro h1
    have h := mask_eq_spec spl h1
    rw [hpm] at h
    exact h
  have hpbn : pb ≤ n := by omega
  have hlen1 : (maskLast o pb mask).length = o.length := maskLast_length o pb mask
  have hlenT : ((maskLast o pb mask).take pb).length = pb := by
    simp [List.length_take, hlen1, hn]
    omega
  apply List.ext_getElem?
  intro j
  rcases Nat.lt_or_ge j n with hj | hj
  · have hjo : j < o.length := by omega
    have rhs : (canonicalizeAddr spl 0 o)[j]? =
        some (o.getD j 0 &&& specByteMask spl j) := by
      rw [canonicalizeAddr_getElem? spl o 0 j, getElem?_eq_some_getD hjo]
      simp
    rcases Nat.eq_zero_or_pos pb with hpb0 | hpb1
    · have hspl : spl = 0 := by omega
      have lhs0 : (maskLast
          ((maskLast o pb mask).take pb ++ List.replicate (n - pb) 0) pb
          mask)[j]? = some 0 := by
        rw [maskLast_getElem?_ne _ _ _ _ (Or.inl hpb0), hpb0]
        simp only [List.take_zero, List.nil_append, Nat.sub_zero]
        rw [List.getElem?_replicate_of_lt hj]
      rw [lhs0, rhs, specByteMask_zero spl j (by omega)]
      simp
    · rcases Nat.lt_trichotomy j (pb - 1) with hjlt | hjeq | hjgt
      · have hLj : ((maskLast o pb mask).take pb ++
            List.replicate (n - pb) 0)[j]? = o[j]? := by
          rw [List.getElem?_append_left (by rw [hlenT]; omega),
            List.getElem?_take_of_lt (by omega),
            maskLast_getElem?_ne _ _ _ _ (Or.inr (by omega))]
        rw [maskLast_getElem?_ne _ _ _ _ (Or.inr (by omega)), hLj, rhs,
          getElem?_eq_some_getD hjo, specByteMask_full spl j (by omega),
          and_255_eq _ (getD_lt_of_forall hb j hjo)]
      · subst hjeq
        have hin : ((maskLast o pb mask).take pb ++
            List.replicate (n - pb) 0).getD (pb - 1) 0 =
              o.getD (pb - 1) 0 &&& mask := by
          have h2 : ((maskLast o pb mask).take pb ++
              List.replicate (n - pb) 0)[pb - 1]? =
                some (o.getD (pb - 1) 0 &&& mask) := by
            rw [List.getElem?_append_left (by rw [hlenT]; omega),
              List.getElem?_take_of_lt (by omega),
              maskLast_getElem?_last o pb mask (by omega) (by omega)]
          rw [List.getD_eq_getElem?_getD, h2]
          rfl
        rw [maskLast_getElem?_last _ pb mask (by omega) (by
            rw [List.length_append, hlenT, List.length_replicate]; omega),
          hin, and_mask_idem, rhs, hmask_spec (by omega)]
      · have hple : ((maskLast o pb mask).take pb).length ≤ j := by
          rw [hlenT]
          omega
        have hLj : ((maskLast o pb mask).take pb ++
            List.replicate (n - pb) 0)[j]? = some 0 := by
          rw [List.getElem?_append_right hple, hlenT,
            List.getElem?_replicate_of_lt (by omega)]
        rw [maskLast_getElem?_ne _ _ _ _ (Or.inr (by omega)), hLj, rhs,
          specByteMask_zero spl j (by omega)]
        simp
  · rw [List.getElem?_eq_none (by
        rw [maskLast_length, List.length_append, hlenT, List.length_replicate]
        omega),
      List.getElem?_eq_none (by rw [canonicalizeAddr_length spl o 0]; omega)]

/-- C1: For every valid ClientSubnet value, parsing the bytes produced by
compose succeeds, consumes them entirely, and yields the canonicalization of
the value: equal prefix lengths and the address masked to source_prefix_len
bits, with every bit beyond the prefix (including whole tail bytes) zeroed. -/
theorem parse_after_compose (cs : ClientSubnet) (hwf : cs.wf)
    (hle : cs.source_prefix_len ≤ cs.addr.bits) :
    cs.compose.map ClientSubnet.parse = some (.ok (canonicalize cs, [])) := by
  obtain ⟨haddr, -, -⟩ := hwf
  obtain ⟨spl, scpl, addr⟩ := cs
  cases addr with
  | v4 o =>
      obtain ⟨hlen, hbytes⟩ := haddr
      have hle' : spl ≤ 32 := hle
      have hpb4 : (prefix_bytes spl).1 ≤ 4 := by
        rw [prefix_bytes_fst]
        omega
      have ht : ((maskLast o (prefix_bytes spl).1 (prefix_bytes spl).2).take
          (prefix_bytes spl).1).length = (prefix_bytes spl).1 := by
        simp [List.length_take, maskLast_length, hlen]
        omega
      simp only [ClientSubnet.compose, if_pos hpb4, Option.map_some']
      simp only [ClientSubnet.parse, parse_u16, parse_u8, parse_buf,
        Nat.zero_mul, Nat.zero_add, if_pos rfl, Nat.not_lt.mpr hpb4,
        if_false, ht, le_refl, if_true, List.take_of_length_le (le_of_eq ht),
        List.drop_eq_nil_iff.mpr (le_of_eq ht)]
      simp only [canonicalize]
      rw [roundtrip_addr spl 4 o hlen hbytes (by omega)]
  | v6 o =>
      obtain ⟨hlen, hbytes⟩ := haddr
      have hle' : spl ≤ 128 := hle
      have hpb16 : (prefix_bytes spl).1 ≤ 16 := by
        rw [prefix_bytes_fst]
        omega
      have ht : ((maskLast o (prefix_bytes spl).1 (prefix_bytes spl).2).take
          (prefix_bytes spl).1).length = (prefix_bytes spl).1 := by
        simp [List.length_take, maskLast_length, hlen]
        omega
      simp only [ClientSubnet.compose, if_pos hpb16, Option.map_some']
      simp only [ClientSubnet.parse, parse_u16, parse_u8, parse_buf,
        Nat.zero_mul, Nat.zero_add, if_pos rfl, Nat.not_lt.mpr hpb16,
        if_false, ht, le_refl, if_true, List.take_of_length_le (le_of_eq ht),
        List.drop_eq_nil_iff.mpr (le_of_eq ht)]
      simp only [canonicalize]
      rw [roundtrip_addr spl 16 o hlen hbytes (by omega),
        if_neg (by decide : ¬ (2 : Nat) = 1)]

/-- Witness for C1 at the test vector 192.0.2.0/22. -/
theorem parse_after_compose_witness :
    (ClientSubnet.compose ⟨22, 0, .v4 [192, 0, 2, 0]⟩).map ClientSubnet.parse =
      some (.ok (canonicalize ⟨22, 0, .v4 [192, 0, 2, 0]⟩, [])) :=
  parse_after_compose ⟨22, 0, .v4 [192, 0, 2, 0]⟩ (by decide) (by decide)

theorem set_getD_self : ∀ (l : List Nat) (i : Nat), l.set i (l.getD i 0) = l := by
  intro l
  induction l with
  | nil => intro i; rfl
  | cons a t ih =>
      intro i
      cases i with
      | zero => simp [List.getD]
      | succ j =>
          simp only [List.set_cons_succ, List.getD_cons_succ]
          rw [ih j]

theorem maskLast_ff (l : List Nat) (pb : Nat) (hl : ∀ x ∈ l, x < 256) :
    maskLast l pb 255 = l := by
  unfold maskLast
  split
  · rfl
  · rcases Nat.lt_or_ge (pb - 1) l.length with h | h
    · rw [and_255_eq _ (getD_lt_of_forall hl _ h)]
      exact set_getD_self l (pb - 1)
    · exact List.set_eq_of_length_le h

theorem mask_eq_ff_of_aligned (spl : Nat) (h8 : spl % 8 = 0) :
    (prefix_bytes spl).2 = 255 := by
  simp [prefix_bytes, h8]

/-- C2: For a valid ClientSubnet whose source_prefix_len is a multiple of 8
(0 included) and within the family width, the final-byte mask is 0xFF, so no
address bits are cleared, and compose emits the 4-byte option header followed
by exactly source_prefix_len / 8 unmodified address bytes; source_prefix_len
= 0 emits the header and zero address bytes. -/
theorem compose_byte_aligned (cs : ClientSubnet) (hwf : cs.wf)
    (h8 : cs.source_prefix_len % 8 = 0)
    (hle : cs.source_prefix_len ≤ cs.addr.bits) :
    (prefix_bytes cs.source_prefix_len).2 = 255 ∧
    cs.compose = some ((match cs.addr with
        | .v4 _ => [0, 1]
        | .v6 _ => [0, 2]) ++
      cs.source_prefix_len :: cs.scope_prefix_len ::
        cs.addr.octets.take (cs.source_prefix_len / 8)) ∧
    (cs.addr.octets.take (cs.source_prefix_len / 8)).length =
      cs.source_prefix_len / 8 := by
  obtain ⟨haddr, hs, -⟩ := hwf
  obtain ⟨spl, scpl, addr⟩ := cs
  have h8' : spl % 8 = 0 := h8
  refine ⟨mask_eq_ff_of_aligned spl h8', ?_⟩
  cases addr with
  | v4 o =>
      obtain ⟨hlen, hbytes⟩ := haddr
      simp only [IpAddr.bits] at hle
      have hpb1 : (prefix_bytes spl).1 = spl / 8 := by
        simp only [prefix_bytes]
        omega
      have hpb4 : spl / 8 ≤ 4 := by omega
      constructor
      · simp only [ClientSubnet.compose, hpb1, mask_eq_ff_of_aligned spl h8',
          maskLast_ff o _ hbytes, IpAddr.octets]
        rw [if_pos hpb4]
        rfl
      · simp [IpAddr.octets, List.length_take, hlen]
        omega
  | v6 o =>
      obtain ⟨hlen, hbytes⟩ := haddr
      simp only [IpAddr.bits] at hle
      have hpb1 : (prefix_bytes spl).1 = spl / 8 := by
        simp only [prefix_bytes]
        omega
      have hpb16 : spl / 8 ≤ 16 := by omega
      constructor
      · simp only [ClientSubnet.compose, hpb1, mask_eq_ff_of_aligned spl h8',
          maskLast_ff o _ hbytes, IpAddr.octets]
        rw [if_pos hpb16]
        rfl
      · simp [IpAddr.octets, List.length_take, hlen]
        omega

/-- Witness for C2 at source_prefix_len 16 (mask 0xFF, two address bytes)
over 192.0.2.9. -/
theorem compose_byte_aligned_witness :
    (prefix_bytes 16).2 = 255 ∧
    ClientSubnet.compose ⟨16, 7, .v4 [192, 0, 2, 9]⟩ =
      some ([0, 1] ++ 16 :: 7 ::
        (IpAddr.v4 [192, 0, 2, 9]).octets.take (16 / 8)) ∧
    ((IpAddr.v4 [192, 0, 2, 9]).octets.take (16 / 8)).length = 16 / 8 :=
  compose_byte_aligned ⟨16, 7, .v4 [192, 0, 2, 9]⟩ (by decide) (by decide)
    (by decide)

/-- C6: Decoding fails with the address-length format error whenever
prefix_bytes exceeds the width of the declared family (4 bytes for IPv4, 16
for IPv6); otherwise, given enough input, it succeeds and consumes exactly
prefix_bytes address bytes from the cursor. -/
theorem parse_checks_address_width (spl scpl : Nat) (rest : List Nat) :
    ((prefix_bytes spl).1 > 4 →
      ClientSubnet.parse (0 :: 1 :: spl :: scpl :: rest) =
        .error (.form "invalid address length in client subnet option")) ∧
    ((prefix_bytes spl).1 > 16 →
      ClientSubnet.parse (0 :: 2 :: spl :: scpl :: rest) =
        .error (.form "invalid address length in client subnet option")) ∧
    ((prefix_bytes spl).1 ≤ 4 → (prefix_bytes spl).1 ≤ rest.length →
      ∃ cs, ClientSubnet.parse (0 :: 1 :: spl :: scpl :: rest) =
        .ok (cs, rest.drop (prefix_bytes spl).1)) ∧
    ((prefix_bytes spl).1 ≤ 16 → (prefix_bytes spl).1 ≤ rest.length →
      ∃ cs, ClientSubnet.parse (0 :: 2 :: spl :: scpl :: rest) =
        .ok (cs, rest.drop (prefix_bytes spl).1)) := by
  refine ⟨fun h => ?_, fun h => ?_, fun h hr => ?_, fun h hr => ?_⟩
  · simp [ClientSubnet.parse, parse_u16, parse_u8, h]
  · simp [ClientSubnet.parse, parse_u16, parse_u8, h]
  · exact ⟨⟨spl, scpl, .v4 (maskLast (rest.take (prefix_bytes spl).1 ++
        List.replicate (4 - (prefix_bytes spl).1) 0) (prefix_bytes spl).1
        (prefix_bytes spl).2)⟩,
      by simp [ClientSubnet.parse, parse_u16, parse_u8, parse_buf,
        Nat.not_lt.mpr h, hr]⟩
  · exact ⟨⟨spl, scpl, .v6 (maskLast (rest.take (prefix_bytes spl).1 ++
        List.replicate (16 - (prefix_bytes spl).1) 0) (prefix_bytes spl).1
        (prefix_bytes spl).2)⟩,
      by simp [ClientSubnet.parse, parse_u16, parse_u8, parse_buf,
        Nat.not_lt.mpr h, hr]⟩

/-- Witness for C6: a 33-bit prefix overflows IPv4 and is rejected; an 8-bit
prefix reads exactly one byte, leaving the rest of the cursor. -/
theorem parse_checks_address_width_witness :
    ClientSubnet.parse (0 :: 1 :: 33 :: 0 :: [1, 2, 3, 4, 5]) =
      .error (.form "invalid address length in client subnet option") ∧
    ∃ cs, ClientSubnet.parse (0 :: 1 :: 8 :: 0 :: [192, 7]) =
      .ok (cs, List.drop (prefix_bytes 8).1 [192, 7]) :=
  ⟨(parse_checks_address_width 33 0 [1, 2, 3, 4, 5]).1 (by decide),
   (parse_checks_address_width 8 0 [192, 7]).2.2.1 (by decide) (by decide)⟩

/-- C10: compose performs no family-width check of its own.  For every valid
ClientSubnet whose source_prefix_len is at most the bit width of its family,
compose is total and appends exactly 4 + prefix_bytes bytes; for a larger
source_prefix_len the address slice is out of bounds and compose panics
(modelled as none) instead of returning an error value. -/
theorem compose_total_within_family_width (cs : ClientSubnet) (hwf : cs.wf) :
    (cs.source_prefix_len ≤ cs.addr.bits →
      ∃ w, cs.compose = some w ∧
        w.length = 4 + (prefix_bytes cs.source_prefix_len).1) ∧
    (cs.addr.bits < cs.source_prefix_len → cs.compose = none) := by
  obtain ⟨haddr, -, -⟩ := hwf
  obtain ⟨spl, scpl, addr⟩ := cs
  cases addr with
  | v4 o =>
      obtain ⟨hlen, hbytes⟩ := haddr
      constructor
      · intro hle
        have hle' : spl ≤ 32 := hle
        have hpb : (prefix_bytes spl).1 ≤ 4 := by
          rw [prefix_bytes_fst]
          omega
        refine ⟨0 :: 1 :: spl :: scpl ::
            (maskLast o (prefix_bytes spl).1 (prefix_bytes spl).2).take
              (prefix_bytes spl).1, ?_, ?_⟩
        · simp only [ClientSubnet.compose, if_pos hpb]
        · simp only [List.length_cons, List.length_take, maskLast_length, hlen]
          omega
      · intro hgt
        have hgt' : (32 : Nat) < spl := hgt
        have hpb : ¬ (prefix_bytes spl).1 ≤ 4 := by
          rw [prefix_bytes_fst]
          omega
        simp only [ClientSubnet.compose, if_neg hpb]
  | v6 o =>
      obtain ⟨hlen, hbytes⟩ := haddr
      constructor
      · intro hle
        have hle' : spl ≤ 128 := hle
        have hpb : (prefix_bytes spl).1 ≤ 16 := by
          rw [prefix_bytes_fst]
          omega
        refine ⟨0 :: 2 :: spl :: scpl ::
            (maskLast o (prefix_bytes spl).1 (prefix_bytes spl).2).take
              (prefix_bytes spl).1, ?_, ?_⟩
        · simp only [ClientSubnet.compose, if_pos hpb]
        · simp only [List.length_cons, List.length_take, maskLast_length, hlen]
          omega
      · intro hgt
        have hgt' : (128 : Nat) < spl := hgt
        have hpb : ¬ (prefix_bytes spl).1 ≤ 16 := by
          rw [prefix_bytes_fst]
          omega
        simp only [ClientSubnet.compose, if_neg hpb]

/-- Witness for C10: /24 composes to 7 bytes; /33 panics on IPv4. -/
theorem compose_total_within_family_width_witness :
    (∃ w, ClientSubnet.compose ⟨24, 0, .v4 [192, 0, 2, 1]⟩ = some w ∧
        w.length = 4 + (prefix_bytes 24).1) ∧
    ClientSubnet.compose ⟨33, 0, .v4 [192, 0, 2, 1]⟩ = none :=
  ⟨(compose_total_within_family_width ⟨24, 0, .v4 [192, 0, 2, 1]⟩
      (by decide)).1 (by decide),
   (compose_total_within_family_width ⟨33, 0, .v4 [192, 0, 2, 1]⟩
      (by decide)).2 (by decide)⟩
